import Mathlib

/-!
Shallow embedding of src/utils/options.ts from the version-bumper GitHub action.

External effects of the original (reading workflow inputs, the file system,
JSON parsing, the GitHub event context and environment variables) enter the
embedded functions as explicit parameters. Components that live in files of the
repository that are not available here (src/utils/utils.ts and the type files)
are modelled from the specification and marked as such in their doc comments.
-/

/-- JS String.prototype.trim: remove leading and trailing whitespace. Defined
directly on the character list so that the kernel can evaluate it on concrete
strings. -/
def jsTrim (s : String) : String :=
  ⟨((s.data.dropWhile Char.isWhitespace).reverse.dropWhile Char.isWhitespace).reverse⟩

/-- A version file entry, VersionFile from src/lib/types/OptionsFile.types: a
path plus an optional pinned line number. JS line values are numbers, with
undefined and 0 falsy; lines are modelled as natural numbers. -/
structure VersionFile where
  path : String
  line : Option Nat := none
  deriving DecidableEq

/-- The five trigger kinds of the RuleTrigger string union from
src/lib/types/OptionsFile.types: commit, pull-request, pull-request-sync,
pull-request-other and manual. -/
inductive RuleTrigger
  | commit
  | pullRequest
  | pullRequestSync
  | pullRequestOther
  | manual
  deriving DecidableEq

/-- Modelled from the spec: BumpRule from src/lib/types/OptionsFile.types, which
is not under src/. Spec section 3: a trigger, optional branch and destBranch
patterns, a target segment and an optional tag flag. The claims settled in this
file never inspect individual rules, so only the shape matters. -/
structure BumpRule where
  trigger : String
  branch : Option String := none
  destBranch : Option String := none
  segment : Option String := none
  tag : Option Bool := none
  deriving DecidableEq

/-- An element of the array handed to normalizeFiles: the TS parameter type is
an array over VersionFile or string. -/
inductive FileEntry
  | vf (f : VersionFile)
  | str (s : String)
  deriving DecidableEq

/-- The object key under which normalizeFiles records an entry: the path field
for an object, the string itself otherwise (options.ts lines 215-218). -/
def FileEntry.key : FileEntry → String
  | .vf f => f.path
  | .str s => s

/-- The value normalizeFiles records for an entry: the line of an object, which
may itself be undefined, and undefined for a bare string. -/
def FileEntry.val : FileEntry → Option Nat
  | .vf f => f.line
  | .str _ => none

/-- Assignment filez[k] = v on a JS object, modelled as an association list
with unique keys: an existing key keeps its insertion position and receives the
new value, a new key is appended at the end. File paths are modelled as
non-numeric strings, which JS enumerates in insertion order. -/
def jsSet : List (String × Option Nat) → String → Option Nat → List (String × Option Nat)
  | [], k, v => [(k, v)]
  | p :: m, k, v => if p.1 == k then (k, v) :: m else p :: jsSet m k v

/-- The object filez after the for-loop of normalizeFiles (options.ts lines
213-219): every entry is recorded under its path key, the last assignment for a
key winning. -/
def filezOf (files : List FileEntry) : List (String × Option Nat) :=
  files.foldl (fun m f => jsSet m f.key f.val) []

/-- JS truthiness of a recorded line value: undefined and 0 are falsy. -/
def lineTruthy : Option Nat → Bool
  | none => false
  | some n => n != 0

/-- normalizeFiles (options.ts lines 212-222): record every entry into filez by
path, then rebuild the list from the keys of filez; a truthy recorded line is
kept, a falsy one (undefined or 0) yields an entry with no line field. The
reduce over the keys of filez is written as a map over its key-value pairs,
which coincide because keys are unique. -/
def normalizeFiles (files : List FileEntry) : List VersionFile :=
  (filezOf files).map fun cur =>
    if lineTruthy cur.2 then { path := cur.1, line := cur.2 } else { path := cur.1 }

/-- The line value of the last occurrence of a given path in a files list, none
when the path never occurs: exactly the final assignment the for-loop of
normalizeFiles makes for that key. -/
def lastVal (p : String) : List FileEntry → Option (Option Nat)
  | [] => none
  | f :: fs =>
    match lastVal p fs with
    | some v => some v
    | none => if f.key == p then some f.val else none

/-- A JS value stored in the skip option: a boolean from the options file, or
the raw workflow-input string that getBumperOptions stores at line 181. -/
inductive SkipVal
  | bool (b : Bool)
  | str (s : String)
  deriving DecidableEq

/-- JS truthiness of a skip value: false and the empty string are falsy. -/
def SkipVal.truthy : SkipVal → Bool
  | .bool b => b
  | .str s => s != ""

/-- The versionFile field of the raw merged options object: a path string or a
VersionFile object; spec section 6 allows both shapes. -/
inductive VFRaw
  | str (s : String)
  | obj (f : VersionFile)
  deriving DecidableEq

/-- A JSON value found in a files field: an array of entries, or a value on
which Array.isArray is false. Absent and falsy values are modelled as none one
level up. -/
inductive FilesVal
  | arr (l : List FileEntry)
  | nonArr
  deriving DecidableEq

/-- A JSON value found in a rules field: an array of rules, or a value on which
Array.isArray is false. -/
inductive RulesVal
  | arr (l : List BumpRule)
  | nonArr
  deriving DecidableEq

/-- The loosely shaped bumperOptions object threaded through options.ts
(BumperOptionsFile together with the dynamic states it takes on inside
getBumperOptions). Absent fields and falsy placeholders such as null are both
modelled as none. -/
structure BumperOptionsFile where
  scheme : Option String := none
  schemeDefinition : Option String := none
  versionFile : Option VFRaw := none
  files : Option FilesVal := none
  rules : Option RulesVal := none
  skip : Option SkipVal := none
  username : Option String := none
  email : Option String := none
  deriving DecidableEq

/-- Membership test of a scheme name in the preset table, mirroring
definedSchemesNames.indexOf(options.scheme) at options.ts lines 30-33: an
undefined scheme never matches a key. The table itself comes from schemes.json,
which is not under src/, so it is a parameter everywhere. -/
def schemeInTable (definedSchemes : List (String × String)) : Option String → Bool
  | some n => (definedSchemes.lookup n).isSome
  | none => false

/-- The blank-definition test of options.ts lines 35 and 37: the definition is
falsy (undefined or the empty string) or trims to the empty string. -/
def defBlank : Option String → Bool
  | none => true
  | some s => s == "" || (jsTrim s) == ""

/-- getSchemeDefinition (options.ts lines 27-42), with the preset table as a
parameter. JS template interpolation of an undefined scheme prints the word
undefined in the error message. -/
def getSchemeDefinition (definedSchemes : List (String × String))
    (options : BumperOptionsFile) : Except String String :=
  if options.scheme ≠ some "custom" ∧ schemeInTable definedSchemes options.scheme then
    .ok ((options.scheme.bind fun s => definedSchemes.lookup s).getD "")
  else if options.scheme ≠ some "custom" ∧ ¬ schemeInTable definedSchemes options.scheme then
    .error ("Scheme " ++ options.scheme.getD "undefined" ++ " is not defined.")
  else if options.scheme = some "custom" ∧ defBlank options.schemeDefinition then
    .error "Custom scheme has no definition. Scheme Definition must be specified in options"
  else if defBlank options.schemeDefinition then
    .error "Custom scheme has no definition. Scheme Definition must be specified in options"
  else
    .ok (options.schemeDefinition.getD "")

/-- normalizeOptions (options.ts lines 14-21): store the resolved scheme
definition on the options object, rethrowing any resolution error. -/
def normalizeOptions (definedSchemes : List (String × String))
    (options : BumperOptionsFile) : Except String BumperOptionsFile :=
  match getSchemeDefinition definedSchemes options with
  | .ok d => .ok { options with schemeDefinition := some d }
  | .error e => .error e

/-- The environment variables consumed by branch resolution. An unset variable
is none; JS renderings collapse undefined and the empty string alike. -/
structure GithubEnv where
  GITHUB_HEAD_REF : Option String := none
  GITHUB_BASE_REF : Option String := none
  GITHUB_REF : Option String := none
  deriving DecidableEq

/-- getBranchFromTrigger (options.ts lines 49-63): the head ref for a
pull-request trigger; for every other trigger GITHUB_REF with its first 11
characters removed, 11 being the length of the literal refs/heads/ that JS
substring skips unconditionally. Undefined and empty results collapse to the
empty string. -/
def getBranchFromTrigger (env : GithubEnv) (trigger : RuleTrigger) : String :=
  match trigger with
  | .pullRequest => env.GITHUB_HEAD_REF.getD ""
  | _ => (env.GITHUB_REF.map fun r => r.drop 11).getD ""

/-- getDestBranchFromTrigger (options.ts lines 71-85): the base ref for a
pull-request trigger, otherwise the same GITHUB_REF computation as the branch. -/
def getDestBranchFromTrigger (env : GithubEnv) (trigger : RuleTrigger) : String :=
  match trigger with
  | .pullRequest => env.GITHUB_BASE_REF.getD ""
  | _ => (env.GITHUB_REF.map fun r => r.drop 11).getD ""

/-- getTrigger (options.ts lines 232-251): classify the GitHub event into a
RuleTrigger, failing with the invalid-trigger error on every unrecognized event
name. An undefined payload action compares unequal to both string literals. -/
def getTrigger (eventName : String) (payloadAction : Option String) :
    Except String RuleTrigger :=
  if eventName = "push" then .ok .commit
  else if eventName = "pull_request" then
    if payloadAction = some "opened" then .ok .pullRequest
    else if payloadAction = some "synchronize" then .ok .pullRequestSync
    else .ok .pullRequestOther
  else if eventName = "workflow_dispatch" then .ok .manual
  else .error "Invalid trigger event"

/-- getSkipOption (options.ts lines 204-206): options.skip when truthy, the
boolean false otherwise. -/
def getSkipOption (options : BumperOptionsFile) : SkipVal :=
  match options.skip with
  | some v => if v.truthy then v else .bool false
  | none => .bool false

/-- getFiles (options.ts lines 196-198): normalizeFiles over options.files. On
a missing or non-array files field the original throws a TypeError while
iterating; that unreachable-for-normalized-options case is modelled as the
empty list. -/
def getFiles (options : BumperOptionsFile) : List VersionFile :=
  match options.files with
  | some (.arr l) => normalizeFiles l
  | _ => []

/-- The workflow inputs read through core.getInput at the top of
getBumperOptions; getInput yields the empty string for an unset input. -/
structure ActionInputs where
  optionsFile : String := ""
  scheme : String := ""
  skip : String := ""
  customScheme : String := ""
  versionFile : String := ""
  files : String := ""
  rules : String := ""
  username : String := ""
  email : String := ""
  deriving DecidableEq

/-- How getBumperOptions fails: the aggregated configuration error thrown at
options.ts line 185, or the TypeError escaping from line 145 when trim is
called on an object-valued versionFile taken from the options file. -/
inductive GBOErr
  | aggregated (msg : String)
  | typeError (msg : String)
  deriving DecidableEq

/-- The missing-scheme test of options.ts lines 120-122: the field is absent,
falsy, or trims to the empty string. -/
def schemeMissing : Option String → Bool
  | none => true
  | some s => s == "" || (jsTrim s) == ""

/-- The version-file block of getBumperOptions (options.ts lines 136-149). The
JSON.parse outcome for a nonempty version-file input is external and enters as
parseVF, none meaning the parse threw, in which case the raw input string
becomes the path. A truthy non-string versionFile from the options file reaches
the cast to string followed by trim and raises a TypeError. -/
def versionFileBlock (parseVF : Option VFRaw) (inp : ActionInputs)
    (b : BumperOptionsFile) : Except GBOErr (BumperOptionsFile × String) :=
  if inp.versionFile ≠ "" ∧ jsTrim inp.versionFile ≠ "" then
    .ok ({ b with versionFile := some (parseVF.getD (.obj { path := inp.versionFile })) }, "")
  else
    match b.versionFile with
    | none => .ok (b, "Version file is not defined in option file or workflow input.\n")
    | some (.str s) =>
      if s = "" ∨ (jsTrim s) = "" then
        .ok (b, "Version file is not defined in option file or workflow input.\n")
      else
        .ok ({ b with versionFile := ((normalizeFiles [.str s]).head?).map VFRaw.obj }, "")
    | some (.obj _) => .error (.typeError "bumperOptions.versionFile.trim is not a function")

/-- The file entries contributed by bumperOptions.versionFile when it is spread
into normalizeFiles (options.ts lines 156 and 164). A still-undefined
versionFile is enumerated by the loop as the value undefined, which JS records
under the object key spelled undefined. -/
def vfEntries : Option VFRaw → List FileEntry
  | none => [.str "undefined"]
  | some (.str s) => [.str s]
  | some (.obj f) => [.vf f]

/-- The files block of getBumperOptions (options.ts lines 151-164); parseFiles
is the external JSON.parse outcome for a nonempty files input, none meaning the
parse threw. -/
def filesBlock (parseFiles : Option FilesVal) (inp : ActionInputs)
    (b : BumperOptionsFile) : BumperOptionsFile × String :=
  if inp.files ≠ "" ∧ jsTrim inp.files ≠ "" then
    match parseFiles with
    | none => (b, "Files not in JSON format\n")
    | some .nonArr => (b, "Files should be in array stringified JSON format\n")
    | some (.arr l) =>
      ({ b with files := some (.arr ((normalizeFiles (vfEntries b.versionFile ++ l)).map .vf)) }, "")
  else
    match b.files with
    | none => (b, "Files are not defined in option file or workflow input.\n")
    | some .nonArr => (b, "Files are not defined in option file or workflow input.\n")
    | some (.arr l) =>
      ({ b with files := some (.arr ((normalizeFiles (vfEntries b.versionFile ++ l)).map .vf)) }, "")

/-- The rules block of getBumperOptions (options.ts lines 166-179); parseRules
is the external JSON.parse outcome for a nonempty rules input. A valid rules
array already present in the merged options is left untouched. -/
def rulesBlock (parseRules : Option RulesVal) (inp : ActionInputs)
    (b : BumperOptionsFile) : BumperOptionsFile × String :=
  if inp.rules ≠ "" ∧ jsTrim inp.rules ≠ "" then
    match parseRules with
    | none => (b, "Rules not in JSON format\n")
    | some .nonArr => (b, "Rules should be in array stringified JSON format\n")
    | some (.arr l) => ({ b with rules := some (.arr l) }, "")
  else
    match b.rules with
    | none => (b, "Rules are not defined in option file or workflow input.\n")
    | some .nonArr => (b, "Rules are not defined in option file or workflow input.\n")
    | some (.arr _) => (b, "")

/-- The scheme-related head of getBumperOptions (options.ts lines 108-134):
loading the options file when the input is set, overriding scheme and custom
scheme from the inputs, and the caught call to getSchemeDefinition. Returns the
working options object together with the error text accumulated so far; the
catch stringifies the Error object with its Error: prefix, as JS string
concatenation does. -/
def schemeBlock (definedSchemes : List (String × String))
    (fileOptions : BumperOptionsFile) (inp : ActionInputs) :
    BumperOptionsFile × String :=
  let b0 : BumperOptionsFile := if inp.optionsFile ≠ "" then fileOptions else {}
  let b1 := if inp.scheme ≠ "" then { b0 with scheme := some inp.scheme } else b0
  let e1 := if inp.scheme = "" ∧ schemeMissing b0.scheme then
    "Scheme is not defined in option file or workflow input.\n" else ""
  let b2 := if inp.customScheme ≠ "" ∧ jsTrim inp.customScheme ≠ "" then
    { b1 with scheme := some "custom", schemeDefinition := some inp.customScheme } else b1
  match getSchemeDefinition definedSchemes b2 with
  | .ok d => ({ b2 with schemeDefinition := some d }, e1)
  | .error m => (b2, e1 ++ "Error: " ++ m ++ "\n")

/-- The trailing unconditional assignments of getBumperOptions (options.ts
lines 181-183): a nonempty skip input is stored raw, and nonempty username and
email inputs are stored. -/
def finalAssignments (inp : ActionInputs) (b : BumperOptionsFile) :
    BumperOptionsFile :=
  let b7 := if inp.skip ≠ "" then { b with skip := some (.str inp.skip) } else b
  let b8 := if inp.username ≠ "" then { b7 with username := some inp.username } else b7
  if inp.email ≠ "" then { b8 with email := some inp.email } else b8

/-- getBumperOptions (options.ts lines 90-190). External effects enter as
parameters: fileOptions is the parsed options file, used only when the
options-file input is set and standing for the empty object when the file is
missing or unparsable; parseVF, parseFiles and parseRules are the JSON.parse
outcomes for the corresponding nonempty inputs. Error messages accumulate in
source order with a trailing newline each, and one aggregated error is thrown
at the end when any message accumulated. -/
def getBumperOptions (definedSchemes : List (String × String))
    (fileOptions : BumperOptionsFile) (parseVF : Option VFRaw)
    (parseFiles : Option FilesVal) (parseRules : Option RulesVal)
    (inp : ActionInputs) : Except GBOErr BumperOptionsFile :=
  let bs := schemeBlock definedSchemes fileOptions inp
  match versionFileBlock parseVF inp bs.1 with
  | .error e => .error e
  | .ok (b4, e3) =>
    let bf := filesBlock parseFiles inp b4
    let br := rulesBlock parseRules inp bf.1
    let b9 := finalAssignments inp br.1
    let error := bs.2 ++ e3 ++ bf.2 ++ br.2
    if error ≠ "" then .error (.aggregated error) else .ok b9

/-- The GitHub event context consumed by getTrigger inside getBumperState. -/
structure GithubContext where
  eventName : String
  payloadAction : Option String := none
  deriving DecidableEq

/-- BumperState from src/lib/types/BumperState.type, which is not under src/;
field names and order follow the object literal assembled at options.ts lines
269-281, with types as produced there. -/
structure BumperState where
  curVersion : String
  newVersion : String
  skip : SkipVal
  schemeRegExp : String
  schemeDefinition : String
  tag : Bool
  trigger : RuleTrigger
  branch : String
  destBranch : String
  files : List VersionFile
  curAppVersion : String
  deriving DecidableEq

/-- Modelled from the spec: getCurVersion lives in src/utils/utils.ts, which is
not under src/. Spec section 4.2: open the version file path; when line is set
use only that line of the content, otherwise the whole content; apply the
scheme pattern and return the match, failing with a version-not-found error
when there is none. The file system maps paths to lists of lines and the
compiled scheme pattern is an abstract matcher, both parameters. A missing or
non-object versionFile cannot occur in normalized options and is reported as an
error. -/
def getCurVersion (fsys : String → Option (List String))
    (applyScheme : String → Option String) (options : BumperOptionsFile) :
    Except String String :=
  match options.versionFile with
  | some (.obj f) =>
    match fsys f.path with
    | none => .error ("Could not read file " ++ f.path)
    | some content =>
      let text := match f.line with
        | some l => content.getD l ""
        | none => String.intercalate "\n" content
      match applyScheme text with
      | some v => .ok v
      | none => .error ("Version not found in file " ++ f.path)
  | _ => .error "Version file is not defined"

/-- The path-only version file built at options.ts line 265: an object holding
just options.versionFile.path. For a missing or string-valued versionFile the
original dereference degenerates (TypeError or an undefined path); those shapes
cannot follow a successful getBumperOptions and are modelled as none. -/
def pathOnlyVersionFile (options : BumperOptionsFile) : Option VFRaw :=
  match options.versionFile with
  | some (.obj f) => some (.obj { path := f.path })
  | _ => none

/-- getBumperState (options.ts lines 257-284). The helpers from
src/utils/utils.ts are not under src/ and enter as parameters:
getSchemeRegexFn for getSchemeRegex (spec section 4.1), the file system and
matcher of the modelled getCurVersion, getTagFn for getTag (spec section 4.3)
and bumpVersionFn for bumpVersion (spec section 4.4), which may fail. The bind
sequence mirrors the source order of the let declarations. -/
def getBumperState (ctx : GithubContext) (env : GithubEnv)
    (definedSchemes : List (String × String))
    (getSchemeRegexFn : BumperOptionsFile → String)
    (fsys : String → Option (List String)) (applyScheme : String → Option String)
    (getTagFn : BumperOptionsFile → RuleTrigger → String → String → Bool)
    (bumpVersionFn : BumperOptionsFile → RuleTrigger → String → String → Except String String)
    (options : BumperOptionsFile) : Except String BumperState := do
  let trigger ← getTrigger ctx.eventName ctx.payloadAction
  let branch := getBranchFromTrigger env trigger
  let destBranch := getDestBranchFromTrigger env trigger
  let skip := getSkipOption options
  let schemeRegExp := getSchemeRegexFn options
  let schemeDefinition ← getSchemeDefinition definedSchemes options
  let curVersion ← getCurVersion fsys applyScheme options
  let curAppVersion ← getCurVersion fsys applyScheme
    { options with versionFile := pathOnlyVersionFile options }
  let tag := getTagFn options trigger branch destBranch
  let newVersion ← bumpVersionFn options trigger branch destBranch
  let files := getFiles options
  return { curVersion, newVersion, skip, schemeRegExp, schemeDefinition, tag,
           trigger, branch, destBranch, files, curAppVersion }

/-- The helper invocations performed by the let sequence of getBumperState
(options.ts lines 258-268) on a run that completes, in source order. -/
def getBumperStateCalls : List String :=
  ["getTrigger", "getBranchFromTrigger", "getDestBranchFromTrigger", "getSkipOption",
   "getSchemeRegex", "getSchemeDefinition", "getCurVersion", "getCurVersion",
   "getTag", "bumpVersion", "getFiles"]

deriving instance DecidableEq for Except

set_option maxRecDepth 10000


deriving instance DecidableEq for Except

set_option maxRecDepth 10000

theorem map_fst_jsSet (m : List (String × Option Nat)) (k : String) (v : Option Nat) :
    (jsSet m k v).map Prod.fst =
      if m.any (fun p => p.1 == k) then m.map Prod.fst else m.map Prod.fst ++ [k] := by
  induction m with
  | nil => simp [jsSet]
  | cons q m ih =>
    by_cases h : q.1 = k
    · simp [jsSet, h]
    · have hb : (q.1 == k) = false := by simp [h]
      have hstep : jsSet (q :: m) k v = q :: jsSet m k v := by simp [jsSet, hb]
      rw [hstep, List.map_cons, ih, List.any_cons, hb, Bool.false_or]
      by_cases hm : m.any (fun p => p.1 == k) <;> simp [hm]

theorem nodup_map_fst_jsSet (m : List (String × Option Nat)) (k : String) (v : Option Nat)
    (h : (m.map Prod.fst).Nodup) : ((jsSet m k v).map Prod.fst).Nodup := by
  rw [map_fst_jsSet]
  split
  · exact h
  · rename_i hany
    have hk : k ∉ m.map Prod.fst := by
      intro hmem
      rcases List.mem_map.mp hmem with ⟨p, hp, hpk⟩
      exact hany (List.any_eq_true.mpr ⟨p, hp, by simp [hpk]⟩)
    simp [List.nodup_append, h, List.disjoint_singleton, hk]

theorem nodup_map_fst_foldl (files : List FileEntry) :
    ∀ m : List (String × Option Nat), (m.map Prod.fst).Nodup →
      ((files.foldl (fun m f => jsSet m f.key f.val) m).map Prod.fst).Nodup := by
  induction files with
  | nil => intro m h; simpa using h
  | cons f fs ih =>
    intro m h
    rw [List.foldl_cons]
    exact ih _ (nodup_map_fst_jsSet _ _ _ h)

theorem nodup_map_fst_filezOf (files : List FileEntry) :
    ((filezOf files).map Prod.fst).Nodup :=
  nodup_map_fst_foldl files [] (by simp)

theorem normalizeFiles_map_path (files : List FileEntry) :
    (normalizeFiles files).map VersionFile.path = (filezOf files).map Prod.fst := by
  unfold normalizeFiles
  rw [List.map_map]
  congr 1
  funext cur
  by_cases h : lineTruthy cur.2 <;> simp [h]

theorem lookup_jsSet (m : List (String × Option Nat)) (k p : String) (v : Option Nat) :
    (jsSet m k v).lookup p = if p = k then some v else m.lookup p := by
  induction m with
  | nil =>
    by_cases hp : p = k
    · simp [jsSet, List.lookup, hp]
    · have hpb : (p == k) = false := by simp [hp]
      simp [jsSet, List.lookup, hp, hpb]
  | cons q m ih =>
    by_cases h : q.1 = k
    · have hb : (q.1 == k) = true := by simp [h]
      by_cases hp : p = k
      · have hpb : (p == k) = true := by simp [hp]
        simp [jsSet, hb, List.lookup, hp, hpb]
      · have hpb : (p == k) = false := by simp [hp]
        have h2 : (p == q.1) = false := by simp [h, hp]
        simp [jsSet, hb, List.lookup, hp, hpb, h2, h]
    · have hb : (q.1 == k) = false := by simp [h]
      by_cases hq : p = q.1
      · have hnk : ¬ p = k := by rw [hq]; exact h
        have h2 : (p == q.1) = true := by simp [hq]
        simp [jsSet, hb, List.lookup, hq, h2, hnk, h]
      · have h2 : (p == q.1) = false := by simp [hq]
        simp [jsSet, hb, List.lookup, h2, ih]

theorem lookup_foldl_jsSet (files : List FileEntry) :
    ∀ (m : List (String × Option Nat)) (p : String),
      (files.foldl (fun m f => jsSet m f.key f.val) m).lookup p =
        match lastVal p files with
        | some v => some v
        | none => m.lookup p := by
  induction files with
  | nil => intro m p; rfl
  | cons f fs ih =>
    intro m p
    rw [List.foldl_cons, ih, lastVal]
    cases h : lastVal p fs with
    | some v => simp
    | none =>
      simp only
      rw [lookup_jsSet]
      by_cases hk : p = f.key
      · have hkb : (f.key == p) = true := by simp [hk]
        simp [hk, hkb]
      · have hkb : (f.key == p) = false := by
          have : ¬ f.key = p := fun he => hk (Eq.symm he)
          simp [this]
        simp [hk, hkb]

theorem lookup_filezOf (files : List FileEntry) (p : String) :
    (filezOf files).lookup p = lastVal p files := by
  unfold filezOf
  rw [lookup_foldl_jsSet]
  cases lastVal p files <;> simp [List.lookup]

theorem lookup_eq_none_iff (m : List (String × Option Nat)) (p : String) :
    m.lookup p = none ↔ p ∉ m.map Prod.fst := by
  induction m with
  | nil => simp [List.lookup]
  | cons q m ih =>
    by_cases h : p = q.1
    · have hb : (p == q.1) = true := by simp [h]
      simp [List.lookup, hb, h]
    · have hb : (p == q.1) = false := by simp [h]
      simp [List.lookup, hb, ih, h]

theorem mem_of_lookup_eq_some (m : List (String × Option Nat)) (p : String)
    (v : Option Nat) (h : m.lookup p = some v) : (p, v) ∈ m := by
  induction m with
  | nil => simp [List.lookup] at h
  | cons q m ih =>
    by_cases hq : p = q.1
    · have hb : (p == q.1) = true := by simp [hq]
      simp only [List.lookup, hb, Option.some.injEq] at h
      rw [List.mem_cons]
      left
      obtain ⟨a, b⟩ := q
      simp_all
    · have hb : (p == q.1) = false := by simp [hq]
      simp only [List.lookup, hb] at h
      exact List.mem_cons_of_mem _ (ih h)

theorem lookup_eq_some_of_mem_nodup (m : List (String × Option Nat)) (p : String)
    (v : Option Nat) (hnd : (m.map Prod.fst).Nodup) (hm : (p, v) ∈ m) :
    m.lookup p = some v := by
  induction m with
  | nil => simp at hm
  | cons q m ih =>
    simp only [List.map_cons, List.nodup_cons] at hnd
    rcases List.mem_cons.mp hm with h | h
    · subst h
      simp [List.lookup]
    · have hne : ¬ p = q.1 := by
        intro he
        exact hnd.1 (he ▸ List.mem_map.mpr ⟨(p, v), h, rfl⟩)
      have hb : (p == q.1) = false := by simp [hne]
      simp only [List.lookup, hb]
      exact ih hnd.2 h

theorem lastVal_eq_none_iff (p : String) (files : List FileEntry) :
    lastVal p files = none ↔ p ∉ files.map FileEntry.key := by
  induction files with
  | nil => simp [lastVal]
  | cons f fs ih =>
    rw [lastVal]
    cases h : lastVal p fs with
    | some v =>
      simp only [h]
      constructor
      · intro hc; cases hc
      · intro hc
        have : p ∉ fs.map FileEntry.key := fun hx => hc (by simp [hx])
        rw [← ih] at this
        rw [this] at h
        cases h
    | none =>
      by_cases hk : f.key = p
      · have hb : (f.key == p) = true := by simp [hk]
        simp [hb, hk]
      · have hb : (f.key == p) = false := by simp [hk]
        have hne : ¬ p = f.key := fun he => hk he.symm
        simp [hb, ih.mp h, hne]

/-- C8: normalizeFiles deduplicates by path. Every path occurs at most once in
the output, a path occurs in the output exactly when it occurs in the input,
and the concrete list from the claim, with path a given three times, normalizes
to the single entry carrying the last-seen line 10. -/
theorem normalizeFiles_dedup :
    (∀ files : List FileEntry, ((normalizeFiles files).map VersionFile.path).Nodup) ∧
    (∀ (files : List FileEntry) (p : String),
      p ∈ (normalizeFiles files).map VersionFile.path ↔ p ∈ files.map FileEntry.key) ∧
    normalizeFiles [FileEntry.vf { path := "a", line := some 5 }, FileEntry.str "a",
      FileEntry.vf { path := "a", line := some 10 }] = [{ path := "a", line := some 10 }] := by
  refine ⟨?_, ?_, by decide⟩
  · intro files
    rw [normalizeFiles_map_path]
    exact nodup_map_fst_filezOf files
  · intro files p
    rw [normalizeFiles_map_path]
    constructor
    · intro hp
      by_contra hout
      have h1 : lastVal p files = none := (lastVal_eq_none_iff p files).mpr hout
      have h2 : (filezOf files).lookup p = none := by rw [lookup_filezOf, h1]
      exact (lookup_eq_none_iff _ _).mp h2 hp
    · intro hp
      by_contra hout
      have h2 : (filezOf files).lookup p = none := (lookup_eq_none_iff _ _).mpr hout
      rw [lookup_filezOf] at h2
      exact ((lastVal_eq_none_iff p files).mp h2) hp

/-- C9: every entry of the output of normalizeFiles either carries a truthy
(nonzero) line number or no line at all, and the concrete entry with the
explicit but falsy line 0 normalizes to a path-only entry, silently losing the
line. -/
theorem normalizeFiles_falsy_line_dropped :
    (∀ (files : List FileEntry) (f : VersionFile), f ∈ normalizeFiles files →
      f.line = none ∨ ∃ n, f.line = some n ∧ n ≠ 0) ∧
    normalizeFiles [FileEntry.vf { path := "a", line := some 0 }] =
      [{ path := "a", line := none }] := by
  refine ⟨?_, by decide⟩
  intro files f hf
  unfold normalizeFiles at hf
  rcases List.mem_map.mp hf with ⟨cur, _, rfl⟩
  by_cases h : lineTruthy cur.2
  · right
    cases hc : cur.2 with
    | none => rw [hc] at h; cases h
    | some n =>
      rw [hc] at h
      refine ⟨n, ?_, ?_⟩
      · rw [if_pos h]
      · simpa [lineTruthy] using h
  · left
    rw [if_neg h]

/-- C1 counterexample: a path first appears with the explicit line 5 and later
appears as a bare string; the output entry for that path has no line at all,
instead of keeping the earlier explicit line as the claim states. -/
theorem normalizeFiles_drops_earlier_line :
    normalizeFiles [FileEntry.vf { path := "a", line := some 5 }, FileEntry.str "a"] =
      [{ path := "a", line := none }] := by decide

/-- C1 amended: in the deduplication of normalizeFiles the last-seen line value
for a path always wins, an undefined line overwriting an earlier explicit line
like any other value; the output entry for the path carries the final recorded
value when it is truthy and no line otherwise, so a path that last appears
without an explicit line loses any earlier explicit line. -/
theorem normalizeFiles_last_assignment_wins (files : List FileEntry) (p : String)
    (v : Option Nat) (h : lastVal p files = some v) :
    (∃ f, f ∈ normalizeFiles files ∧ f.path = p ∧
      f.line = if lineTruthy v then v else none) ∧
    ∀ f ∈ normalizeFiles files, f.path = p →
      f.line = if lineTruthy v then v else none := by
  have hlook : (filezOf files).lookup p = some v := by rw [lookup_filezOf, h]
  constructor
  · have hmem : (p, v) ∈ filezOf files := mem_of_lookup_eq_some _ _ _ hlook
    refine ⟨if lineTruthy v then { path := p, line := v } else { path := p }, ?_, ?_, ?_⟩
    · unfold normalizeFiles
      refine List.mem_map.mpr ⟨(p, v), hmem, ?_⟩
      by_cases hv : lineTruthy v <;> simp [hv]
    · by_cases hv : lineTruthy v <;> simp [hv]
    · by_cases hv : lineTruthy v <;> simp [hv]
  · intro f hf hfp
    unfold normalizeFiles at hf
    rcases List.mem_map.mp hf with ⟨cur, hcur, rfl⟩
    have hcurp : cur.1 = p := by
      by_cases hv : lineTruthy cur.2 <;> simpa [hv] using hfp
    have hlk : (filezOf files).lookup p = some cur.2 := by
      apply lookup_eq_some_of_mem_nodup _ _ _ (nodup_map_fst_filezOf files)
      rw [← hcurp]
      exact hcur
    have hv2 : cur.2 = v := by
      rw [hlook] at hlk
      injection hlk with h2
      exact h2.symm
    rw [hv2]
    by_cases hv : lineTruthy v <;> simp [hv]

/-- C1 amended, witness: for the two-element list in which path a first carries
line 5 and then appears bare, the last recorded value is undefined and the
single output entry for a has no line. -/
theorem normalizeFiles_last_assignment_wins_witness :
    (∃ f, f ∈ normalizeFiles [FileEntry.vf { path := "a", line := some 5 },
        FileEntry.str "a"] ∧ f.path = "a" ∧ f.line = none) ∧
    ∀ f ∈ normalizeFiles [FileEntry.vf { path := "a", line := some 5 },
        FileEntry.str "a"], f.path = "a" → f.line = none :=
  normalizeFiles_last_assignment_wins
    [FileEntry.vf { path := "a", line := some 5 }, FileEntry.str "a"] "a" none (by decide)

/-- C3: resolving scheme custom with a missing definition or with a definition
that is blank after trimming fails, and both cases produce the same
configuration error of getSchemeDefinition, for any preset table. -/
theorem getSchemeDefinition_custom_blank (definedSchemes : List (String × String))
    (options : BumperOptionsFile) (hs : options.scheme = some "custom")
    (hd : options.schemeDefinition = none ∨
      ∃ s, options.schemeDefinition = some s ∧ jsTrim s = "") :
    getSchemeDefinition definedSchemes options =
      .error "Custom scheme has no definition. Scheme Definition must be specified in options" := by
  have hblank : defBlank options.schemeDefinition = true := by
    rcases hd with h | ⟨s, h, ht⟩
    · rw [h]; rfl
    · rw [h]
      simp [defBlank, ht]
  unfold getSchemeDefinition
  rw [if_neg (by simp [hs]), if_neg (by simp [hs]), if_pos ⟨hs, hblank⟩]

/-- C3, witness: with scheme custom, an absent definition and the empty-string
definition fail with the same error. -/
theorem getSchemeDefinition_custom_blank_witness :
    getSchemeDefinition [] { scheme := some "custom" } =
      .error "Custom scheme has no definition. Scheme Definition must be specified in options" ∧
    getSchemeDefinition [] { scheme := some "custom", schemeDefinition := some "" } =
      .error "Custom scheme has no definition. Scheme Definition must be specified in options" :=
  ⟨getSchemeDefinition_custom_blank [] { scheme := some "custom" } rfl (Or.inl rfl),
   getSchemeDefinition_custom_blank [] { scheme := some "custom", schemeDefinition := some "" }
     rfl (Or.inr ⟨"", rfl, rfl⟩)⟩

/-- C5: getTrigger classifies the recognized event names totally, mapping push
to commit, pull_request to the three pull-request triggers according to the
action, and workflow_dispatch to manual, and fails with the fatal
invalid-trigger error on every other event name. -/
theorem getTrigger_total_classification :
    (∀ a, getTrigger "push" a = .ok .commit) ∧
    (∀ a, getTrigger "workflow_dispatch" a = .ok .manual) ∧
    getTrigger "pull_request" (some "opened") = .ok .pullRequest ∧
    getTrigger "pull_request" (some "synchronize") = .ok .pullRequestSync ∧
    (∀ a, a ≠ some "opened" → a ≠ some "synchronize" →
      getTrigger "pull_request" a = .ok .pullRequestOther) ∧
    (∀ e a, e ≠ "push" → e ≠ "pull_request" → e ≠ "workflow_dispatch" →
      getTrigger e a = .error "Invalid trigger event") := by
  refine ⟨fun a => rfl, fun a => rfl, rfl, rfl, ?_, ?_⟩
  · intro a h1 h2
    unfold getTrigger
    rw [if_neg (by decide), if_pos rfl, if_neg h1, if_neg h2]
  · intro e a h1 h2 h3
    unfold getTrigger
    rw [if_neg h1, if_neg h2, if_neg h3]

/-- C5, witness: concrete classifications, including the fatal error on the
unrecognized event name release and the catch-all pull-request action. -/
theorem getTrigger_total_classification_witness :
    getTrigger "push" none = .ok .commit ∧
    getTrigger "pull_request" (some "closed") = .ok .pullRequestOther ∧
    getTrigger "release" none = .error "Invalid trigger event" :=
  ⟨getTrigger_total_classification.1 none,
   getTrigger_total_classification.2.2.2.2.1 (some "closed") (by decide) (by decide),
   getTrigger_total_classification.2.2.2.2.2 "release" none (by decide) (by decide) (by decide)⟩

theorem drop_refsHeads (s : String) : ("refs/heads/" ++ s).drop 11 = s := by
  have h1 : ("refs/heads/" ++ s).drop 11 = String.mk (("refs/heads/" ++ s).data.drop 11) :=
    String.drop_eq _ _
  have h2 : ("refs/heads/" ++ s).data = "refs/heads/".data ++ s.data := String.data_append _ _
  rw [h1, h2]
  have h3 : ("refs/heads/".data ++ s.data).drop 11 = s.data := by
    have : ("refs/heads/".data).length = 11 := rfl
    rw [← this, List.drop_left]
  rw [h3]

/-- C7: branch resolution depends only on the trigger kind. For the
pull-request trigger the branch is the head ref and the destination branch the
base ref, empty when unset; for every other trigger both branch and destination
branch are the same ref with its refs/heads/ prefix stripped. -/
theorem branch_resolution_by_trigger (env : GithubEnv) :
    (getBranchFromTrigger env .pullRequest = env.GITHUB_HEAD_REF.getD "" ∧
     getDestBranchFromTrigger env .pullRequest = env.GITHUB_BASE_REF.getD "") ∧
    ∀ t, t ≠ RuleTrigger.pullRequest → ∀ s, env.GITHUB_REF = some ("refs/heads/" ++ s) →
      getBranchFromTrigger env t = s ∧ getDestBranchFromTrigger env t = s := by
  refine ⟨⟨rfl, rfl⟩, ?_⟩
  intro t ht s hs
  cases t with
  | pullRequest => exact absurd rfl ht
  | commit =>
    constructor <;> · show (env.GITHUB_REF.map fun r => r.drop 11).getD "" = s
                      rw [hs]
                      simp [drop_refsHeads]
  | manual =>
    constructor <;> · show (env.GITHUB_REF.map fun r => r.drop 11).getD "" = s
                      rw [hs]
                      simp [drop_refsHeads]
  | pullRequestSync =>
    constructor <;> · show (env.GITHUB_REF.map fun r => r.drop 11).getD "" = s
                      rw [hs]
                      simp [drop_refsHeads]
  | pullRequestOther =>
    constructor <;> · show (env.GITHUB_REF.map fun r => r.drop 11).getD "" = s
                      rw [hs]
                      simp [drop_refsHeads]

/-- C7, witness: a concrete environment, exercised at the pull-request trigger
and at the commit trigger with a refs/heads/ ref. -/
theorem branch_resolution_by_trigger_witness :
    (getBranchFromTrigger
        { GITHUB_HEAD_REF := some "feature/login", GITHUB_BASE_REF := some "main",
          GITHUB_REF := some ("refs/heads/" ++ "develop") } .pullRequest = "feature/login" ∧
     getDestBranchFromTrigger
        { GITHUB_HEAD_REF := some "feature/login", GITHUB_BASE_REF := some "main",
          GITHUB_REF := some ("refs/heads/" ++ "develop") } .pullRequest = "main") ∧
    (getBranchFromTrigger
        { GITHUB_HEAD_REF := some "feature/login", GITHUB_BASE_REF := some "main",
          GITHUB_REF := some ("refs/heads/" ++ "develop") } .commit = "develop" ∧
     getDestBranchFromTrigger
        { GITHUB_HEAD_REF := some "feature/login", GITHUB_BASE_REF := some "main",
          GITHUB_REF := some ("refs/heads/" ++ "develop") } .commit = "develop") :=
  ⟨(branch_resolution_by_trigger _).1,
   (branch_resolution_by_trigger _).2 .commit (by decide) "develop" rfl⟩

/-- C2 counterexample: the claim says that after normalizeOptions no later step
of the run invokes the scheme resolver again, but the let sequence of
getBumperState itself contains an invocation of getSchemeDefinition
(options.ts line 263), so state assembly resolves the scheme once more. -/
theorem getBumperState_resolves_again :
    getBumperStateCalls.count "getSchemeDefinition" ≠ 0 := by decide

/-- Characterization of the successful outcomes of getSchemeDefinition: either
a preset lookup, or the custom scheme returning its own non-blank definition. -/
theorem getSchemeDefinition_ok_iff (ds : List (String × String)) (o : BumperOptionsFile)
    (d : String) :
    getSchemeDefinition ds o = .ok d ↔
      (o.scheme ≠ some "custom" ∧ schemeInTable ds o.scheme = true ∧
        (o.scheme.bind fun s => ds.lookup s).getD "" = d) ∨
      (o.scheme = some "custom" ∧ defBlank o.schemeDefinition = false ∧
        o.schemeDefinition = some d) := by
  unfold getSchemeDefinition
  by_cases h1 : o.scheme ≠ some "custom" ∧ schemeInTable ds o.scheme
  · rw [if_pos h1]
    constructor
    · intro h
      injection h with h
      exact Or.inl ⟨h1.1, h1.2, h⟩
    · intro h
      rcases h with ⟨_, _, hv⟩ | ⟨hc, _, _⟩
      · rw [hv]
      · exact absurd hc h1.1
  · rw [if_neg h1]
    by_cases h2 : o.scheme ≠ some "custom" ∧ ¬ schemeInTable ds o.scheme
    · rw [if_pos h2]
      constructor
      · intro h; cases h
      · intro h
        rcases h with ⟨_, hin, _⟩ | ⟨hc, _, _⟩
        · exact absurd hin h2.2
        · exact absurd hc h2.1
    · have hcust : o.scheme = some "custom" := by
        by_contra hc
        exact h2 ⟨hc, fun hin => h1 ⟨hc, hin⟩⟩
      rw [if_neg h2]
      by_cases h3 : o.scheme = some "custom" ∧ defBlank o.schemeDefinition
      · rw [if_pos h3]
        constructor
        · intro h; cases h
        · intro h
          rcases h with ⟨hne, _, _⟩ | ⟨_, hdb, _⟩
          · exact absurd hcust hne
          · rw [h3.2] at hdb; cases hdb
      · rw [if_neg h3]
        have hdb : defBlank o.schemeDefinition = false := by
          cases hh : defBlank o.schemeDefinition
          · rfl
          · exact absurd ⟨hcust, hh⟩ h3
        rw [if_neg (by simp [hdb])]
        constructor
        · intro h
          injection h with h
          cases hd : o.schemeDefinition with
          | none => rw [hd] at hdb; simp [defBlank] at hdb
          | some s =>
            rw [hd] at h
            right
            refine ⟨hcust, by rw [← hd]; exact hdb, ?_⟩
            have hs : s = d := h
            rw [hs]
        · intro h
          rcases h with ⟨hne, _, _⟩ | ⟨_, _, hds⟩
          · exact absurd hcust hne
          · rw [hds]
            rfl

/-- C2 amended: scheme resolution is not performed exactly once per invocation,
since getBumperState invokes getSchemeDefinition again after normalizeOptions
has run; however the result is cached in options.schemeDefinition and any
re-invocation of the resolver on the normalized options returns exactly the
cached definition, so VersionReader, VersionBumper and state assembly all see
the same resolved value. -/
theorem normalizeOptions_caches_resolution (definedSchemes : List (String × String))
    (options options2 : BumperOptionsFile)
    (h : normalizeOptions definedSchemes options = .ok options2) :
    ∃ d, options2.schemeDefinition = some d ∧
      getSchemeDefinition definedSchemes options2 = .ok d := by
  unfold normalizeOptions at h
  cases hres : getSchemeDefinition definedSchemes options with
  | error e => rw [hres] at h; cases h
  | ok d =>
    rw [hres] at h
    injection h with h
    subst h
    refine ⟨d, rfl, ?_⟩
    apply (getSchemeDefinition_ok_iff _ _ _).mpr
    rcases (getSchemeDefinition_ok_iff definedSchemes options d).mp hres with
      ⟨hne, hin, hv⟩ | ⟨hc, hdb, hds⟩
    · exact Or.inl ⟨hne, hin, hv⟩
    · refine Or.inr ⟨hc, ?_, rfl⟩
      show defBlank (some d) = false
      rw [← hds]
      exact hdb

/-- C2 amended, witness: normalizing options with the preset scheme semantic
caches the preset definition, and re-resolving on the normalized options
returns the same cached definition. -/
theorem normalizeOptions_caches_resolution_witness :
    ∃ d, ({ scheme := some "semantic", schemeDefinition := some "major.minor.patch" }
        : BumperOptionsFile).schemeDefinition = some d ∧
      getSchemeDefinition [("semantic", "major.minor.patch")]
        { scheme := some "semantic", schemeDefinition := some "major.minor.patch" } = .ok d :=
  normalizeOptions_caches_resolution [("semantic", "major.minor.patch")]
    { scheme := some "semantic" }
    { scheme := some "semantic", schemeDefinition := some "major.minor.patch" } (by decide)

theorem skip_versionFileBlock (parseVF : Option VFRaw) (inp : ActionInputs)
    (b : BumperOptionsFile) (r : BumperOptionsFile × String)
    (h : versionFileBlock parseVF inp b = .ok r) : r.1.skip = b.skip := by
  unfold versionFileBlock at h
  split at h
  · injection h with h
    rw [← h]
  · split at h
    · injection h with h
      rw [← h]
    · split at h
      · injection h with h
        rw [← h]
      · injection h with h
        rw [← h]
    · cases h

theorem skip_filesBlock (parseFiles : Option FilesVal) (inp : ActionInputs)
    (b : BumperOptionsFile) : (filesBlock parseFiles inp b).1.skip = b.skip := by
  unfold filesBlock
  split
  · split <;> rfl
  · split <;> rfl

theorem skip_rulesBlock (parseRules : Option RulesVal) (inp : ActionInputs)
    (b : BumperOptionsFile) : (rulesBlock parseRules inp b).1.skip = b.skip := by
  unfold rulesBlock
  split
  · split <;> rfl
  · split <;> rfl


theorem skip_finalAssignments (inp : ActionInputs) (b : BumperOptionsFile)
    (h : inp.skip ≠ "") : (finalAssignments inp b).skip = some (.str inp.skip) := by
  unfold finalAssignments
  by_cases he : inp.email ≠ "" <;> by_cases hu : inp.username ≠ "" <;>
    simp [he, hu, h]

/-- C10: getSkipOption returns the stored skip value when it is truthy and the
boolean false when skip is unset; getBumperOptions stores the raw workflow
input string for skip whenever that input is nonempty, so every nonempty skip
input, the string false included, yields a truthy skip value in the assembled
state. -/
theorem skip_raw_string_truthy :
    (∀ options : BumperOptionsFile, options.skip = none →
      getSkipOption options = .bool false) ∧
    (∀ (options : BumperOptionsFile) (v : SkipVal), options.skip = some v → v.truthy →
      getSkipOption options = v) ∧
    (∀ (definedSchemes : List (String × String)) (fileOptions : BumperOptionsFile)
      (parseVF : Option VFRaw) (parseFiles : Option FilesVal) (parseRules : Option RulesVal)
      (inp : ActionInputs) (b : BumperOptionsFile), inp.skip ≠ "" →
      getBumperOptions definedSchemes fileOptions parseVF parseFiles parseRules inp = .ok b →
      b.skip = some (.str inp.skip) ∧ (getSkipOption b).truthy = true) := by
  refine ⟨?_, ?_, ?_⟩
  · intro options h
    unfold getSkipOption
    rw [h]
  · intro options v h ht
    unfold getSkipOption
    rw [h]
    show (if v.truthy = true then v else SkipVal.bool false) = v
    rw [if_pos ht]
  · intro ds fo pv pf pr inp b hskip h
    unfold getBumperOptions at h
    simp only at h
    cases hvb : versionFileBlock pv inp (schemeBlock ds fo inp).1 with
    | error e => rw [hvb] at h; cases h
    | ok r =>
      rw [hvb] at h
      obtain ⟨b4, e3⟩ := r
      simp only at h
      split at h
      · cases h
      · injection h with h
        subst h
        refine ⟨skip_finalAssignments inp _ hskip, ?_⟩
        unfold getSkipOption
        rw [skip_finalAssignments inp _ hskip]
        have ht : (SkipVal.str inp.skip).truthy = true := by
          simp [SkipVal.truthy, hskip]
        show (if (SkipVal.str inp.skip).truthy = true then SkipVal.str inp.skip
          else SkipVal.bool false).truthy = true
        rw [if_pos ht]
        exact ht

/-- C10, witness: a successful run whose skip input is the string false stores
it raw and the resulting skip value is truthy. -/
theorem skip_raw_string_truthy_witness :
    ({ scheme := some "semantic", schemeDefinition := some "M",
       versionFile := some (.obj { path := "VERSION" }),
       files := some (.arr [.vf { path := "VERSION" }]), rules := some (.arr []),
       skip := some (.str "false") } : BumperOptionsFile).skip =
      some (.str "false") ∧
    (getSkipOption
      { scheme := some "semantic", schemeDefinition := some "M",
        versionFile := some (.obj { path := "VERSION" }),
        files := some (.arr [.vf { path := "VERSION" }]), rules := some (.arr []),
        skip := some (.str "false") }).truthy = true :=
  skip_raw_string_truthy.2.2 [("semantic", "M")] {} none (some (.arr [])) (some (.arr []))
    { scheme := "semantic", skip := "false", versionFile := "VERSION",
      files := "[]", rules := "[]" }
    { scheme := some "semantic", schemeDefinition := some "M",
      versionFile := some (.obj { path := "VERSION" }),
      files := some (.arr [.vf { path := "VERSION" }]), rules := some (.arr []),
      skip := some (.str "false") }
    (by decide) (by decide)

/-- C4: the aggregating validation of getBumperOptions is broken by a
TypeError. First conjunct: with an options file that supplies versionFile as an
object while scheme, files and rules are all missing, the call of trim on the
object versionFile (options.ts line 145) throws a TypeError before the files
and rules checks run, so the run aborts without reporting any of the missing
fields. Second conjunct: when the same options file is empty, every
missing-field message is collected and thrown together in one aggregated error
after all fields have been checked, which is the behaviour the claim
describes. -/
theorem getBumperOptions_typeError_aborts_aggregation :
    getBumperOptions [] { versionFile := some (.obj { path := "VERSION" }) }
      none none none { optionsFile := "bump.json" } =
      .error (.typeError "bumperOptions.versionFile.trim is not a function") ∧
    getBumperOptions [] {} none none none { optionsFile := "bump.json" } =
      .error (.aggregated ("Scheme is not defined in option file or workflow input.\n" ++
        "Error: Scheme undefined is not defined.\n" ++
        "Version file is not defined in option file or workflow input.\n" ++
        "Files are not defined in option file or workflow input.\n" ++
        "Rules are not defined in option file or workflow input.\n")) :=
  ⟨by decide, by decide⟩

theorem getBumperState_ok_reads (ctx : GithubContext) (env : GithubEnv)
    (definedSchemes : List (String × String)) (gsr : BumperOptionsFile → String)
    (fsys : String → Option (List String)) (applyScheme : String → Option String)
    (getTagFn : BumperOptionsFile → RuleTrigger → String → String → Bool)
    (bumpVersionFn : BumperOptionsFile → RuleTrigger → String → String → Except String String)
    (options : BumperOptionsFile) (st : BumperState)
    (h : getBumperState ctx env definedSchemes gsr fsys applyScheme getTagFn
      bumpVersionFn options = .ok st) :
    getCurVersion fsys applyScheme options = .ok st.curVersion ∧
    getCurVersion fsys applyScheme
      { options with versionFile := pathOnlyVersionFile options } = .ok st.curAppVersion := by
  unfold getBumperState at h
  simp only [bind, Except.bind, pure, Except.pure] at h
  split at h
  · cases h
  · split at h
    · cases h
    · split at h
      · cases h
      · split at h
        · cases h
        · split at h
          · cases h
          · injection h with h
            subst h
            constructor <;> assumption

/-- C6: state assembly reads the current version twice with the same version
file. Given a successful run on options whose versionFile is an object, the
curVersion of the state is the read of the configured version file including
its line override, the curAppVersion is the read of the same file with the
line override removed, curAppVersion is unchanged under any change of the line
override, and there exists a run in which the two values differ. The reader
getCurVersion and the other helpers of src/utils/utils.ts are not under src/
and are modelled from the spec or passed as parameters. -/
theorem getBumperState_two_reads (ctx : GithubContext) (env : GithubEnv)
    (definedSchemes : List (String × String)) (gsr : BumperOptionsFile → String)
    (fsys : String → Option (List String)) (applyScheme : String → Option String)
    (getTagFn : BumperOptionsFile → RuleTrigger → String → String → Bool)
    (bumpVersionFn : BumperOptionsFile → RuleTrigger → String → String → Except String String)
    (options : BumperOptionsFile) (f : VersionFile) (st : BumperState)
    (hvf : options.versionFile = some (.obj f))
    (h : getBumperState ctx env definedSchemes gsr fsys applyScheme getTagFn
      bumpVersionFn options = .ok st) :
    getCurVersion fsys applyScheme options = .ok st.curVersion ∧
    getCurVersion fsys applyScheme
      { options with versionFile := some (.obj { path := f.path }) } =
      .ok st.curAppVersion ∧
    (∀ (l : Option Nat) (st2 : BumperState),
      getBumperState ctx env definedSchemes gsr fsys applyScheme getTagFn bumpVersionFn
        { options with versionFile := some (.obj { path := f.path, line := l }) } =
        .ok st2 →
      st2.curAppVersion = st.curAppVersion) ∧
    (∃ (ctx2 : GithubContext) (env2 : GithubEnv) (ds2 : List (String × String))
      (gsr2 : BumperOptionsFile → String) (fsys2 : String → Option (List String))
      (as2 : String → Option String)
      (tg2 : BumperOptionsFile → RuleTrigger → String → String → Bool)
      (bp2 : BumperOptionsFile → RuleTrigger → String → String → Except String String)
      (o2 : BumperOptionsFile) (st3 : BumperState),
      getBumperState ctx2 env2 ds2 gsr2 fsys2 as2 tg2 bp2 o2 = .ok st3 ∧
      st3.curVersion ≠ st3.curAppVersion) := by
  have hp : pathOnlyVersionFile options = some (.obj { path := f.path }) := by
    unfold pathOnlyVersionFile
    rw [hvf]
  obtain ⟨h1, h2⟩ := getBumperState_ok_reads ctx env definedSchemes gsr fsys applyScheme
    getTagFn bumpVersionFn options st h
  rw [hp] at h2
  refine ⟨h1, h2, ?_, ?_⟩
  · intro l st2 h2ok
    obtain ⟨_, h2b⟩ := getBumperState_ok_reads ctx env definedSchemes gsr fsys applyScheme
      getTagFn bumpVersionFn _ st2 h2ok
    have hb2 : getCurVersion fsys applyScheme
        { options with versionFile := some (.obj { path := f.path }) } =
        .ok st2.curAppVersion := h2b
    rw [h2] at hb2
    injection hb2 with hb2
    exact hb2.symm
  · exact ⟨⟨"push", none⟩, {}, [("semantic", "M")], fun _ => "",
      (fun p => if p = "V" then some ["2.0.0", "1.2.3"] else none),
      (fun s => some (s.take 5)), (fun _ _ _ _ => false), (fun _ _ _ _ => .ok "1.2.4"),
      { scheme := some "semantic", versionFile := some (.obj { path := "V", line := some 1 }),
        files := some (.arr []) },
      { curVersion := "1.2.3", newVersion := "1.2.4", skip := .bool false,
        schemeRegExp := "", schemeDefinition := "M", tag := false, trigger := .commit,
        branch := "", destBranch := "", files := [], curAppVersion := "2.0.0" },
      by decide, by decide⟩

/-- C6, witness: a concrete run whose version file pins line 1; the restricted
read yields 1.2.3 while the unrestricted read of the same file yields 2.0.0,
and the two differ. -/
theorem getBumperState_two_reads_witness :
    getCurVersion (fun p => if p = "V" then some ["2.0.0", "1.2.3"] else none)
      (fun s => some (s.take 5))
      { scheme := some "semantic",
        versionFile := some (.obj { path := "V", line := some 1 }),
        files := some (.arr []) } = .ok "1.2.3" ∧
    getCurVersion (fun p => if p = "V" then some ["2.0.0", "1.2.3"] else none)
      (fun s => some (s.take 5))
      { scheme := some "semantic", versionFile := some (.obj { path := "V" }),
        files := some (.arr []) } = .ok "2.0.0" ∧
    ("1.2.3" : String) ≠ "2.0.0" :=
  ⟨(getBumperState_two_reads ⟨"push", none⟩ {} [("semantic", "M")] (fun _ => "")
      (fun p => if p = "V" then some ["2.0.0", "1.2.3"] else none) (fun s => some (s.take 5))
      (fun _ _ _ _ => false) (fun _ _ _ _ => .ok "1.2.4")
      { scheme := some "semantic",
        versionFile := some (.obj { path := "V", line := some 1 }),
        files := some (.arr []) } { path := "V", line := some 1 }
      { curVersion := "1.2.3", newVersion := "1.2.4", skip := .bool false,
        schemeRegExp := "", schemeDefinition := "M", tag := false, trigger := .commit,
        branch := "", destBranch := "", files := [], curAppVersion := "2.0.0" }
      rfl (by decide)).1,
   (getBumperState_two_reads ⟨"push", none⟩ {} [("semantic", "M")] (fun _ => "")
      (fun p => if p = "V" then some ["2.0.0", "1.2.3"] else none) (fun s => some (s.take 5))
      (fun _ _ _ _ => false) (fun _ _ _ _ => .ok "1.2.4")
      { scheme := some "semantic",
        versionFile := some (.obj { path := "V", line := some 1 }),
        files := some (.arr []) } { path := "V", line := some 1 }
      { curVersion := "1.2.3", newVersion := "1.2.4", skip := .bool false,
        schemeRegExp := "", schemeDefinition := "M", tag := false, trigger := .commit,
        branch := "", destBranch := "", files := [], curAppVersion := "2.0.0" }
      rfl (by decide)).2.1,
   by decide⟩

/-- C9, witness: the membership hypothesis discharged at a concrete input, the
entry with path a and line 3 in the normalization of the singleton list. -/
theorem normalizeFiles_falsy_line_dropped_witness :
    ({ path := "a", line := some 3 } : VersionFile).line = none ∨
    ∃ n, ({ path := "a", line := some 3 } : VersionFile).line = some n ∧ n ≠ 0 :=
  normalizeFiles_falsy_line_dropped.1 [FileEntry.vf { path := "a", line := some 3 }]
    { path := "a", line := some 3 } (by decide)
